import Mathlib

/-!
Verification development for a protoc plugin that renders TypeScript-style
type declarations from protobuf descriptors.  The definitions below are a
shallow embedding of `src/main.rs`: the descriptor structures carry exactly
the data the program reads, the `Ts*` types mirror the Rust enums/structs,
the `fmt` functions mirror the `fmt::Display` implementations, and
`process_req` mirrors the driver.  Fallible operations (Vec indexing that can
panic) are modelled with `Option`.
-/

namespace ProtocGenTst

/-- The protobuf field type enum (`FieldDescriptorProto_Type`), all 18 variants. -/
inductive FieldDescriptorProto_Type where
  | TYPE_DOUBLE | TYPE_FLOAT | TYPE_INT64 | TYPE_UINT64 | TYPE_INT32
  | TYPE_FIXED64 | TYPE_FIXED32 | TYPE_BOOL | TYPE_STRING | TYPE_GROUP
  | TYPE_MESSAGE | TYPE_BYTES | TYPE_UINT32 | TYPE_ENUM | TYPE_SFIXED32
  | TYPE_SFIXED64 | TYPE_SINT32 | TYPE_SINT64
deriving DecidableEq, Repr

/-- The protobuf field label enum (`FieldDescriptorProto_Label`). -/
inductive FieldDescriptorProto_Label where
  | LABEL_OPTIONAL | LABEL_REQUIRED | LABEL_REPEATED
deriving DecidableEq, Repr

/-- The slice of `FieldDescriptorProto` the generator reads: `get_json_name`,
`get_field_type`, `get_type_name`, `get_label`, and
`has_oneof_index`/`get_oneof_index` (modelled as an `Option` over the i32). -/
structure FieldDescriptorProto where
  json_name : String
  field_type : FieldDescriptorProto_Type
  type_name : String
  label : FieldDescriptorProto_Label
  oneof_index : Option Int
deriving DecidableEq, Repr

/-- The slice of `OneofDescriptorProto` the generator reads (only its presence
in the `oneof_decl` list matters). -/
structure OneofDescriptorProto where
  name : String
deriving DecidableEq, Repr

/-- The slice of `DescriptorProto` (a message type) the generator reads, plus
`nested_type`, which the driver never iterates.  Recursive, hence an
inductive with projection functions. -/
inductive DescriptorProto where
  | mk (name : String) (field : List FieldDescriptorProto)
       (oneof_decl : List OneofDescriptorProto)
       (nested_type : List DescriptorProto)

def DescriptorProto.name : DescriptorProto → String
  | .mk n _ _ _ => n

def DescriptorProto.field : DescriptorProto → List FieldDescriptorProto
  | .mk _ f _ _ => f

def DescriptorProto.oneof_decl : DescriptorProto → List OneofDescriptorProto
  | .mk _ _ o _ => o

def DescriptorProto.nested_type : DescriptorProto → List DescriptorProto
  | .mk _ _ _ n => n

/-- The slice of `FileDescriptorProto` the generator reads: its top-level
message list. -/
structure FileDescriptorProto where
  name : String
  message_type : List DescriptorProto

/-- Model of `CodeGeneratorRequest`: ordered list of file descriptors. -/
structure CodeGeneratorRequest where
  proto_file : List FileDescriptorProto

/-- Model of `CodeGeneratorResponse_File`: one generated output record. -/
structure CodeGeneratorResponse_File where
  name : String
  content : String
deriving DecidableEq, Repr

/-- Model of `CodeGeneratorResponse`: ordered list of output records. -/
structure CodeGeneratorResponse where
  file : List CodeGeneratorResponse_File
deriving DecidableEq, Repr

/-- Alias for the builtin string type, needed because `TsType` below has a
constructor named `String`. -/
abbrev Str : Type := String

/-- Rust `enum TsType`. -/
inductive TsType where
  | Boolean
  | Number
  | String
  | Never
  | Object (name : Str)
deriving DecidableEq, Repr

/-- Mirror of `impl fmt::Display for TsType`. -/
def TsType.fmt : TsType → Str
  | .Boolean => "boolean"
  | .Number => "number"
  | .String => "string"
  | .Never => "never"
  | .Object name => name

/-- Mirror of `field_type_to_ts_type` from `src/main.rs`. -/
def field_type_to_ts_type (field : FieldDescriptorProto) : TsType :=
  match field.field_type with
  | .TYPE_DOUBLE | .TYPE_FLOAT | .TYPE_INT64 | .TYPE_UINT64 | .TYPE_INT32
  | .TYPE_FIXED64 | .TYPE_FIXED32 | .TYPE_UINT32 | .TYPE_SFIXED32
  | .TYPE_SFIXED64 | .TYPE_SINT32 | .TYPE_SINT64 => TsType.Number
  | .TYPE_STRING | .TYPE_BYTES => TsType.String
  | .TYPE_BOOL => TsType.Boolean
  | .TYPE_ENUM | .TYPE_MESSAGE | .TYPE_GROUP => TsType.Object field.type_name

/-- Rust `enum TsFieldType`. -/
inductive TsFieldType where
  | Single (ts_type : TsType)
  | Array (ts_type : TsType)
deriving DecidableEq, Repr

/-- Mirror of `impl fmt::Display for TsFieldType`. -/
def TsFieldType.fmt : TsFieldType → String
  | .Single ts_type => ts_type.fmt
  | .Array ts_type => "ReadonlyArray<" ++ ts_type.fmt ++ ">"

/-- Rust `struct TsField`. -/
structure TsField where
  key : String
  ts_type : TsFieldType
  is_required : Bool
deriving DecidableEq, Repr

/-- Mirror of `impl fmt::Display for TsField`. -/
def TsField.fmt (fld : TsField) : String :=
  match fld.is_required with
  | true => fld.key ++ ": " ++ fld.ts_type.fmt ++ ";\n"
  | false => fld.key ++ "?: " ++ fld.ts_type.fmt ++ ";\n"

/-- Rust `struct TsObjectType`. -/
structure TsObjectType where
  name : String
  fields : List TsField
  oneof_list : List (List TsField)
deriving DecidableEq, Repr

/-- The `never`-typed replacement the renderer writes for a non-selected
member of a oneof variant (the `TsField { .., TsFieldType::Single(TsType::Never), .. }`
literal in `TsObjectType::fmt`). -/
def neverField (fj : TsField) : TsField :=
  { key := fj.key, ts_type := TsFieldType.Single TsType.Never, is_required := fj.is_required }

/-- One member declaration of a oneof variant: the inner
`if field_i.key == field_j.key` of `TsObjectType::fmt`. -/
def variantMember (fi fj : TsField) : TsField :=
  if fi.key == fj.key then fj else neverField fj

/-- All member declarations of the variant of `oneof` whose live member is
`fi` (the inner `oneof.iter().for_each` loop of `TsObjectType::fmt`). -/
def variantMembers (oneof : List TsField) (fi : TsField) : List TsField :=
  oneof.map (variantMember fi)

/-- The text of one variant shape (the body of the middle `for (j, field_i)`
loop, without the trailing separator). -/
def renderVariant (oneof : List TsField) (fi : TsField) : String :=
  "    \x7b\n"
    ++ String.join ((variantMembers oneof fi).map (fun fj => "      " ++ fj.fmt))
    ++ "    \x7d"

/-- The text of one oneof group's union (the body of the outer
`for (i, oneof)` loop of `TsObjectType::fmt`, without the inter-group
separator). -/
def renderOneof (oneof : List TsField) : String :=
  let oneof_last_index := oneof.length - 1
  "Readonly<\n"
    ++ String.join (oneof.enum.map (fun p =>
        renderVariant oneof p.2 ++ (if p.1 < oneof_last_index then " |" else "") ++ "\n"))
    ++ "  >"

/-- Mirror of `impl fmt::Display for TsObjectType`. -/
def TsObjectType.fmt (t : TsObjectType) : String :=
  let oneof_list_len := t.oneof_list.length
  let fields_len := t.fields.length
  "type " ++ t.name ++ " = "
    ++ (if fields_len > 0 then "Readonly<\x7b\n" else "")
    ++ String.join (t.fields.map (fun fld => "  " ++ fld.fmt))
    ++ (if fields_len > 0 then "\x7d>" ++ (if oneof_list_len > 0 then " & " else "") else "")
    ++ String.join (t.oneof_list.enum.map (fun p =>
        renderOneof p.2 ++ (if p.1 < oneof_list_len - 1 then " & " else "")))
    ++ ";\n"

/-- The `TsField` built for a oneof member in `process_req`
(`is_required: false`). -/
def mkOneofField (field : FieldDescriptorProto) : TsField :=
  { key := field.json_name,
    ts_type := match field.label with
      | .LABEL_OPTIONAL | .LABEL_REQUIRED => TsFieldType.Single (field_type_to_ts_type field)
      | .LABEL_REPEATED => TsFieldType.Array (field_type_to_ts_type field),
    is_required := false }

/-- The `TsField` built for a plain (non-oneof) field in `process_req`
(`is_required: true`). -/
def mkPlainField (field : FieldDescriptorProto) : TsField :=
  { key := field.json_name,
    ts_type := match field.label with
      | .LABEL_OPTIONAL | .LABEL_REQUIRED => TsFieldType.Single (field_type_to_ts_type field)
      | .LABEL_REPEATED => TsFieldType.Array (field_type_to_ts_type field),
    is_required := true }

/-- Model of `oneof_list[n].push(x)`, where out-of-range indexing panics: `none`
models the panic. -/
def pushAt : List (List TsField) → Nat → TsField → Option (List (List TsField))
  | [], _, _ => none
  | b :: bs, 0, x => some ((b ++ [x]) :: bs)
  | b :: bs, n + 1, x => (pushAt bs n x).map (fun bs2 => b :: bs2)

/-- The `filter(has_oneof_index).for_each(push)` loop of `process_req`:
walk the fields, appending each oneof member to its group's bucket.  A
negative index (cast `as usize` in Rust becomes a huge index) or an index
beyond the bucket list panics: `none`. -/
def pushFields : List FieldDescriptorProto → List (List TsField) → Option (List (List TsField))
  | [], acc => some acc
  | f :: fs, acc =>
    match f.oneof_index with
    | none => pushFields fs acc
    | some g =>
      if g < 0 then none
      else
        match pushAt acc g.toNat (mkOneofField f) with
        | none => none
        | some acc2 => pushFields fs acc2

/-- Build the message's `oneof_list`: one empty bucket per `oneof_decl`,
then the push loop. -/
def buildOneofList (m : DescriptorProto) : Option (List (List TsField)) :=
  pushFields m.field (m.oneof_decl.map (fun _ => []))

/-- The plain-field list of the message (the
`filter(!has_oneof_index).map(TsField{..})` of `process_req`). -/
def plainTsFields (m : DescriptorProto) : List TsField :=
  (m.field.filter (fun f => !f.oneof_index.isSome)).map mkPlainField

/-- Mirror of `gen_resp_file` from `src/main.rs`. -/
def gen_resp_file (name : String) (content : String) : CodeGeneratorResponse_File :=
  { name := name ++ ".d.ts", content := content }

/-- The per-message body of the driver's map: classify the fields, render,
and package one output record. -/
def process_msg (m : DescriptorProto) : Option CodeGeneratorResponse_File :=
  (buildOneofList m).map (fun ol =>
    gen_resp_file m.name
      (TsObjectType.fmt { name := m.name, fields := plainTsFields m, oneof_list := ol }))

/-- Mirror of `process_req` from `src/main.rs`: for every file, for every top-level
message, produce one output record; a panic anywhere yields `none`. -/
def process_req (req : CodeGeneratorRequest) : Option CodeGeneratorResponse :=
  ((req.proto_file.flatMap (fun pf => pf.message_type)).mapM process_msg).map
    (fun fs => { file := fs })

/-- The map `stripNested` replaces a message's nested-type list by `[]`, leaving the
fields the generator reads untouched.  Used to state that nested message
types contribute nothing to the output. -/
def DescriptorProto.stripNested : DescriptorProto → DescriptorProto
  | .mk n f o _ => .mk n f o []

/-- The map `stripNested` lifted to a whole request. -/
def CodeGeneratorRequest.stripNested (req : CodeGeneratorRequest) : CodeGeneratorRequest :=
  { proto_file := req.proto_file.map (fun pf =>
      { pf with message_type := pf.message_type.map DescriptorProto.stripNested }) }

/-- Whether a character is layout whitespace (space or newline). -/
def isWsChar (c : Char) : Bool := c = ' ' || c = '\n'

/-- Collapse every maximal run of layout whitespace to a single space. -/
def collapseWsChars : List Char → List Char
  | [] => []
  | [c] => if isWsChar c then [' '] else [c]
  | c :: c2 :: cs =>
    if isWsChar c then
      if isWsChar c2 then collapseWsChars (c2 :: cs)
      else ' ' :: collapseWsChars (c2 :: cs)
    else c :: collapseWsChars (c2 :: cs)

/-- Whitespace normalization: collapse every maximal run of spaces/newlines
to a single space and trim both ends.  Used to compare the renderer's
multi-line layout with the spec's single-line examples. -/
def normalizeWs (s : String) : String :=
  ⟨(((collapseWsChars s.data).dropWhile isWsChar).reverse.dropWhile isWsChar).reverse⟩

/-- The numeric scalar kinds of the spec's mapping table (all integer and
floating-point variants). -/
def isNumericKind : FieldDescriptorProto_Type → Bool
  | .TYPE_DOUBLE | .TYPE_FLOAT | .TYPE_INT64 | .TYPE_UINT64 | .TYPE_INT32
  | .TYPE_FIXED64 | .TYPE_FIXED32 | .TYPE_UINT32 | .TYPE_SFIXED32
  | .TYPE_SFIXED64 | .TYPE_SINT32 | .TYPE_SINT64 => true
  | _ => false

/-- The textual scalar kinds of the spec's mapping table (text and raw byte
sequences). -/
def isTextualKind : FieldDescriptorProto_Type → Bool
  | .TYPE_STRING | .TYPE_BYTES => true
  | _ => false

/-- The reference kinds of the spec's mapping table (enum / message / group
references). -/
def isReferenceKind : FieldDescriptorProto_Type → Bool
  | .TYPE_ENUM | .TYPE_MESSAGE | .TYPE_GROUP => true
  | _ => false

/-- Modelled from the spec: the §4.1 mapping table `mapScalar`, written from
the spec's rows (numeric → number, textual → string, boolean → boolean,
reference → the referenced type's name). -/
def specMapScalar (field : FieldDescriptorProto) : TsType :=
  if isNumericKind field.field_type then TsType.Number
  else if isTextualKind field.field_type then TsType.String
  else if field.field_type = .TYPE_BOOL then TsType.Boolean
  else TsType.Object field.type_name

/-- Whether a rendered member declaration is the "forbidden" `key?: never`
form (its type is the single `never` type). -/
def isNeverMember (fld : TsField) : Bool :=
  match fld.ts_type with
  | .Single .Never => true
  | _ => false

/-! Concrete inputs used by counterexamples and witnesses. -/

/-- The plain numeric field `id` of the spec's end-to-end example. -/
def idField : FieldDescriptorProto :=
  { json_name := "id", field_type := .TYPE_INT32, type_name := "",
    label := .LABEL_OPTIONAL, oneof_index := none }

/-- The oneof member `circle` of the spec's end-to-end example. -/
def circleField : FieldDescriptorProto :=
  { json_name := "circle", field_type := .TYPE_MESSAGE, type_name := "Circle",
    label := .LABEL_OPTIONAL, oneof_index := some 0 }

/-- The oneof member `square` of the spec's end-to-end example. -/
def squareField : FieldDescriptorProto :=
  { json_name := "square", field_type := .TYPE_MESSAGE, type_name := "Square",
    label := .LABEL_OPTIONAL, oneof_index := some 0 }

/-- The `Shape` message of the spec's end-to-end example. -/
def shapeMsg : DescriptorProto :=
  .mk "Shape" [idField, circleField, squareField] [⟨"shape"⟩] []

/-- A one-file request containing only the `Shape` message. -/
def shapeReq : CodeGeneratorRequest :=
  { proto_file := [{ name := "shape.proto", message_type := [shapeMsg] }] }

/-- The exact text the renderer produces for the `Shape` example. -/
def shapeRendered : Str :=
  "type Shape = Readonly<\x7b\n  id: number;\n\x7d> & Readonly<\n    \x7b\n      circle?: Circle;\n      square?: never;\n    \x7d |\n    \x7b\n      circle?: never;\n      square?: Square;\n    \x7d\n  >;\n"

/-- The single-line text of the spec's end-to-end `Shape` example. -/
def shapeSpecLine : Str :=
  "type Shape = Readonly<\x7b id: number; \x7d> & Readonly< \x7b circle?: Circle; square?: never; \x7d | \x7b circle?: never; square?: Square; \x7d >;"

/-- The repeated textual plain field `tags` of the spec's `Tags` example. -/
def tagsField : FieldDescriptorProto :=
  { json_name := "tags", field_type := .TYPE_STRING, type_name := "",
    label := .LABEL_REPEATED, oneof_index := none }

/-- The `Tags` message: a single repeated textual plain field `tags`. -/
def tagsMsg : DescriptorProto :=
  .mk "Tags" [tagsField] [] []

/-- The exact text the renderer produces for the `Tags` example. -/
def tagsRendered : Str :=
  "type Tags = Readonly<\x7b\n  tags: ReadonlyArray<string>;\n\x7d>;\n"

/-- The single-line text of the spec's `Tags` example. -/
def tagsSpecLine : Str :=
  "type Tags = Readonly<\x7b tags: ReadonlyArray<string>; \x7d>;"

/-- A oneof member named `x` of numeric type, for the duplicate-key
counterexample. -/
def dupFieldA : FieldDescriptorProto :=
  { json_name := "x", field_type := .TYPE_INT32, type_name := "",
    label := .LABEL_OPTIONAL, oneof_index := some 0 }

/-- A second oneof member also named `x`, of textual type. -/
def dupFieldB : FieldDescriptorProto :=
  { json_name := "x", field_type := .TYPE_STRING, type_name := "",
    label := .LABEL_OPTIONAL, oneof_index := some 0 }

/-- A oneof group whose two members share the key `x`. -/
def dupGroup : List TsField :=
  [mkOneofField dupFieldA, mkOneofField dupFieldB]

/-- A field carrying the out-of-range oneof index 5. -/
def badField : FieldDescriptorProto :=
  { json_name := "b", field_type := .TYPE_INT32, type_name := "",
    label := .LABEL_OPTIONAL, oneof_index := some 5 }

/-- A message whose only field points at oneof group 5 while only one group
is declared: the malformed-group-index example. -/
def badIndexMsg : DescriptorProto :=
  .mk "Bad" [badField] [⟨"g"⟩] []

/-- The file holding a well-formed message followed by the malformed one. -/
def badFile : FileDescriptorProto :=
  { name := "bad.proto", message_type := [tagsMsg, badIndexMsg] }

/-- A request containing a well-formed message followed by the malformed one. -/
def badIndexReq : CodeGeneratorRequest :=
  { proto_file := [badFile] }

/-- A message `Inner` nested inside `Outer` below. -/
def innerMsg : DescriptorProto :=
  .mk "Inner"
    [{ json_name := "i", field_type := .TYPE_INT32, type_name := "",
       label := .LABEL_OPTIONAL, oneof_index := none }] [] []

/-- A top-level message `Outer` with a nested message type `Inner`. -/
def outerMsg : DescriptorProto :=
  .mk "Outer"
    [{ json_name := "o", field_type := .TYPE_BOOL, type_name := "",
       label := .LABEL_OPTIONAL, oneof_index := none }] [] [innerMsg]

/-- A request whose only file holds `Outer` (with `Inner` nested inside). -/
def nestedReq : CodeGeneratorRequest :=
  { proto_file := [{ name := "nested.proto", message_type := [outerMsg] }] }

/-! Helper lemmas about the classification fold, option-valued traversal,
and list partitioning. -/

theorem pushAt_isSome {bs : List (List TsField)} {n : Nat} {x : TsField} :
    (pushAt bs n x).isSome ↔ n < bs.length := by
  induction bs generalizing n with
  | nil => simp [pushAt]
  | cons b bs ih =>
    cases n with
    | zero => simp [pushAt]
    | succ n => simpa [pushAt, Option.isSome_map] using ih

theorem pushAt_length {bs out : List (List TsField)} {n : Nat} {x : TsField}
    (h : pushAt bs n x = some out) : out.length = bs.length := by
  induction bs generalizing n out with
  | nil => simp [pushAt] at h
  | cons b bs ih =>
    cases n with
    | zero => simp [pushAt] at h; subst h; simp
    | succ n =>
      simp only [pushAt, Option.map_eq_some'] at h
      obtain ⟨bs2, h2, rfl⟩ := h
      simp [ih h2]

theorem pushAt_get? {bs out : List (List TsField)} {n : Nat} {x : TsField}
    (h : pushAt bs n x = some out) (g : Nat) :
    out[g]? = if g = n then bs[g]?.map (fun b => b ++ [x]) else bs[g]? := by
  induction bs generalizing n out g with
  | nil => simp [pushAt] at h
  | cons b bs ih =>
    cases n with
    | zero =>
      simp [pushAt] at h
      subst h
      cases g <;> simp
    | succ n =>
      simp only [pushAt, Option.map_eq_some'] at h
      obtain ⟨bs2, h2, rfl⟩ := h
      cases g with
      | zero => simp
      | succ g => simpa [Nat.succ_inj] using ih h2 g

theorem pushFields_length {fs : List FieldDescriptorProto} {acc out : List (List TsField)}
    (h : pushFields fs acc = some out) : out.length = acc.length := by
  induction fs generalizing acc with
  | nil => simp [pushFields] at h; simp [h]
  | cons f fs ih =>
    simp only [pushFields] at h
    cases hidx : f.oneof_index with
    | none => rw [hidx] at h; exact ih h
    | some v =>
      rw [hidx] at h
      by_cases hv : v < 0
      · simp [hv] at h
      · simp only [hv, if_neg, ite_false] at h
        cases hp : pushAt acc v.toNat (mkOneofField f) with
        | none => rw [hp] at h; cases h
        | some acc2 =>
          rw [hp] at h
          rw [ih h, pushAt_length hp]

theorem pushFields_none {fs : List FieldDescriptorProto} {acc : List (List TsField)}
    (hbad : ∃ f ∈ fs, ∃ v, f.oneof_index = some v ∧ ¬(0 ≤ v ∧ v.toNat < acc.length)) :
    pushFields fs acc = none := by
  induction fs generalizing acc with
  | nil => simp at hbad
  | cons f fs ih =>
    obtain ⟨f0, hf0, v0, hv0, hrange⟩ := hbad
    simp only [pushFields]
    rcases List.mem_cons.mp hf0 with rfl | hmem
    · rw [hv0]
      by_cases hv : v0 < 0
      · simp [hv]
      · simp only [hv, ite_false]
        have hge : acc.length ≤ v0.toNat := by omega
        cases hp : pushAt acc v0.toNat (mkOneofField f0) with
        | none => rfl
        | some acc2 =>
          have : v0.toNat < acc.length := pushAt_isSome.mp (by rw [hp]; rfl)
          omega
    · cases hidx : f.oneof_index with
      | none => exact ih ⟨f0, hmem, v0, hv0, hrange⟩
      | some v =>
        by_cases hv : v < 0
        · simp [hv]
        · simp only [hv, ite_false]
          cases hp : pushAt acc v.toNat (mkOneofField f) with
          | none => rfl
          | some acc2 =>
            have hlen : acc2.length = acc.length := pushAt_length hp
            exact ih ⟨f0, hmem, v0, hv0, by rw [hlen]; exact hrange⟩

theorem pushFields_inRange {fs : List FieldDescriptorProto} {acc out : List (List TsField)}
    (h : pushFields fs acc = some out) :
    ∀ f ∈ fs, ∀ v, f.oneof_index = some v → 0 ≤ v ∧ v.toNat < acc.length := by
  intro f hf v hv
  by_contra hcon
  rw [pushFields_none ⟨f, hf, v, hv, hcon⟩] at h
  cases h

theorem pushFields_get? {fs : List FieldDescriptorProto} {acc out : List (List TsField)}
    (h : pushFields fs acc = some out) (g : Nat) :
    out[g]? = acc[g]?.map
      (fun b => b ++ (fs.filter (fun f => f.oneof_index == some ((g : Nat) : Int))).map mkOneofField) := by
  induction fs generalizing acc with
  | nil =>
    simp [pushFields] at h
    subst h
    cases acc[g]? <;> simp
  | cons f fs ih =>
    simp only [pushFields] at h
    cases hidx : f.oneof_index with
    | none =>
      rw [hidx] at h
      rw [ih h]
      simp [List.filter_cons, hidx]
    | some v =>
      rw [hidx] at h
      by_cases hv : v < 0
      · simp [hv] at h
      · simp only [hv, ite_false] at h
        cases hp : pushAt acc v.toNat (mkOneofField f) with
        | none => rw [hp] at h; cases h
        | some acc2 =>
          rw [hp] at h
          rw [ih h, pushAt_get? hp g]
          by_cases hg : g = v.toNat
          · have hveq : v = ((g : Nat) : Int) := by omega
            have hcond : (f.oneof_index == some ((g : Nat) : Int)) = true := by
              rw [hidx, hveq]; simp
            simp only [if_pos hg, List.filter_cons, hcond, ite_true, List.map_cons]
            cases acc[g]? <;> simp
          · have hvne : v ≠ ((g : Nat) : Int) := by omega
            have hcond : (f.oneof_index == some ((g : Nat) : Int)) = false := by
              rw [hidx]; simpa using hvne
            simp only [if_neg hg, List.filter_cons, hcond, Bool.false_eq_true, ite_false]

theorem list_mapM_some {α β : Type} {f : α → Option β} :
    ∀ {l : List α} {ys : List β}, l.mapM f = some ys →
      ys.length = l.length ∧ ∀ g : Nat, Option.bind l[g]? f = ys[g]? := by
  intro l
  induction l with
  | nil =>
    intro ys h
    rw [List.mapM_nil] at h
    have hys : ys = [] := by simpa using h.symm
    subst hys
    simp
  | cons x l ih =>
    intro ys h
    rw [List.mapM_cons] at h
    cases hx : f x with
    | none => rw [hx] at h; simp at h
    | some y =>
      rw [hx] at h
      cases hl : l.mapM f with
      | none => rw [hl] at h; simp at h
      | some ys' =>
        rw [hl] at h
        have hys : ys = y :: ys' := by simpa using h.symm
        subst hys
        obtain ⟨hlen, hget⟩ := ih hl
        refine ⟨by simp [hlen], ?_⟩
        intro g
        cases g with
        | zero => simpa using hx
        | succ g => simpa using hget g

theorem list_mapM_none {α β : Type} {f : α → Option β} {x : α}
    {l : List α} (hx : x ∈ l) (hfx : f x = none) : l.mapM f = none := by
  induction l with
  | nil => cases hx
  | cons a l ih =>
    rw [List.mapM_cons]
    rcases List.mem_cons.mp hx with rfl | hmem
    · rw [hfx]; rfl
    · cases ha : f a with
      | none => rfl
      | some b => rw [ih hmem]; rfl

theorem list_mapM_congr {α β : Type} {f g : α → Option β} :
    ∀ {l : List α}, (∀ x ∈ l, f x = g x) → l.mapM f = l.mapM g := by
  intro l
  induction l with
  | nil => intro _; rfl
  | cons a l ih =>
    intro h
    rw [List.mapM_cons, List.mapM_cons, h a (List.mem_cons_self a l),
      ih (fun x hx => h x (List.mem_cons_of_mem a hx))]

theorem list_mapM_map {α β γ : Type} {h : α → β} {f : β → Option γ} :
    ∀ (l : List α), (l.map h).mapM f = l.mapM (fun x => f (h x)) := by
  intro l
  induction l with
  | nil => rfl
  | cons a l ih => rw [List.map_cons, List.mapM_cons, List.mapM_cons, ih]

theorem filter_partition {α : Type} (idx : α → Option Int) (n : Nat) :
    ∀ (l : List α), (∀ f ∈ l, ∀ v, idx f = some v → 0 ≤ v ∧ v.toNat < n) →
    ((l.filter (fun f => !(idx f).isSome) : Multiset α) +
      ∑ g ∈ Finset.range n, ((l.filter (fun f => idx f == some ((g : Nat) : Int))) : Multiset α)) =
      (l : Multiset α) := by
  intro l
  induction l with
  | nil => simp
  | cons f l ih =>
    intro h
    have hl := ih (fun f hf => h f (List.mem_cons_of_mem _ hf))
    cases hidx : idx f with
    | none =>
      have hplain : (f :: l).filter (fun f => !(idx f).isSome) =
          f :: l.filter (fun f => !(idx f).isSome) := by
        simp [List.filter_cons, hidx]
      have hgroups : ∀ g : Nat,
          (f :: l).filter (fun f => idx f == some ((g : Nat) : Int)) =
            l.filter (fun f => idx f == some ((g : Nat) : Int)) := by
        intro g
        simp [List.filter_cons, hidx]
      rw [hplain, Finset.sum_congr rfl (fun g _ => by rw [hgroups g]),
        ← Multiset.cons_coe, Multiset.cons_add, hl, Multiset.cons_coe]
    | some v =>
      obtain ⟨hv0, hvn⟩ := h f (List.mem_cons_self f l) v hidx
      have hplain : (f :: l).filter (fun f => !(idx f).isSome) =
          l.filter (fun f => !(idx f).isSome) := by
        simp [List.filter_cons, hidx]
      have hgroups : ∀ g : Nat,
          (((f :: l).filter (fun f => idx f == some ((g : Nat) : Int))) : Multiset α) =
            ((l.filter (fun f => idx f == some ((g : Nat) : Int))) : Multiset α) +
              (if g = v.toNat then {f} else 0) := by
        intro g
        by_cases hg : g = v.toNat
        · have hcond : (idx f == some ((g : Nat) : Int)) = true := by
            rw [hidx]
            have : v = ((g : Nat) : Int) := by omega
            rw [this]; simp
          simp only [List.filter_cons, hcond, ite_true, if_pos hg]
          rw [← Multiset.cons_coe, ← Multiset.singleton_add, add_comm]
        · have hcond : (idx f == some ((g : Nat) : Int)) = false := by
            rw [hidx]
            have : v ≠ ((g : Nat) : Int) := by omega
            simpa using this
          simp only [List.filter_cons, hcond, Bool.false_eq_true, ite_false, if_neg hg]
          simp
      rw [hplain]
      rw [Finset.sum_congr rfl (fun g _ => hgroups g), Finset.sum_add_distrib,
        Finset.sum_ite_eq' (Finset.range n) (v.toNat) (fun _ => ({f} : Multiset α))]
      simp only [Finset.mem_range, hvn, ite_true]
      rw [← add_assoc, hl, add_comm, Multiset.singleton_add, Multiset.cons_coe]

/-! The claims, their counterexamples and their witnesses. -/

/-- Claim C4: the scalar-kind mapping is a total function agreeing with the
spec table: every numeric kind maps to `number`, string/bytes map to
`string`, bool maps to `boolean`, and enum/message/group references map to
the referenced type name; determinism is inherent in it being a function. -/
theorem C4_scalar_mapping_total (field : FieldDescriptorProto) :
    field_type_to_ts_type field = specMapScalar field := by
  cases field with
  | mk j t tn l o => cases t <;> rfl

/-- Claim C6: a plain field renders with no optional marker (`key: Type`),
independent of its wire label (optional vs required produce the same
`TsField`), while a oneof member renders with the optional marker
(`key?: Type`) and is its own live member declaration in its variant. -/
theorem C6_plain_present_group_optional (field : FieldDescriptorProto) :
    TsField.fmt (mkPlainField field) =
        field.json_name ++ ": " ++ (mkPlainField field).ts_type.fmt ++ ";\n"
    ∧ mkPlainField { field with label := FieldDescriptorProto_Label.LABEL_OPTIONAL } =
        mkPlainField { field with label := FieldDescriptorProto_Label.LABEL_REQUIRED }
    ∧ TsField.fmt (mkOneofField field) =
        field.json_name ++ "?: " ++ (mkOneofField field).ts_type.fmt ++ ";\n"
    ∧ variantMember (mkOneofField field) (mkOneofField field) = mkOneofField field := by
  refine ⟨rfl, rfl, rfl, ?_⟩
  simp [variantMember]

/-- Claim C7: a message with zero fields and zero groups still renders a
named declaration whose shape text is empty (`type N = ;`), and a declared
group with zero member fields renders an empty union member set
(`Readonly<` immediately closed), not a silently dropped group. -/
theorem C7_degenerate_rendering (name : Str) :
    TsObjectType.fmt { name := name, fields := [], oneof_list := [] } =
        "type " ++ name ++ " = ;\n"
    ∧ process_msg (.mk name [] [] []) =
        some { name := name ++ ".d.ts", content := "type " ++ name ++ " = ;\n" }
    ∧ TsObjectType.fmt { name := name, fields := [], oneof_list := [[]] } =
        "type " ++ name ++ " = Readonly<\n  >;\n"
    ∧ process_msg (.mk name [] [⟨"g"⟩] []) =
        some { name := name ++ ".d.ts", content := "type " ++ name ++ " = Readonly<\n  >;\n" }
    ∧ renderOneof [] = "Readonly<\n  >" := by
  refine ⟨?_, ?_, ?_, ?_, rfl⟩
  · simp [TsObjectType.fmt, String.join, String.append_assoc]
  · simp [process_msg, buildOneofList, pushFields, plainTsFields, gen_resp_file,
      TsObjectType.fmt, String.join, String.append_assoc, DescriptorProto.field,
      DescriptorProto.oneof_decl, DescriptorProto.name]
  · simp [TsObjectType.fmt, renderOneof, String.join, String.append_assoc]
  · simp [process_msg, buildOneofList, pushFields, plainTsFields, gen_resp_file,
      TsObjectType.fmt, renderOneof, String.join, String.append_assoc,
      DescriptorProto.field, DescriptorProto.oneof_decl, DescriptorProto.name]

/-- Claim C3, counterexample: the rendered text for the `Shape` example is
not literally the spec's single-line string (the renderer emits newlines
and indentation). -/
theorem C3_counterexample :
    ¬ ((process_req shapeReq).map (fun r => r.file.map (fun f => f.content)) =
        some [shapeSpecLine]) := by decide

/-- Claim C3 (amended): the `Shape` example renders the exact multi-line
text `shapeRendered`, whose whitespace-normalized form equals the spec's
single-line example string. -/
theorem C3_shape_example :
    process_req shapeReq =
      some { file := [{ name := "Shape.d.ts", content := shapeRendered }] }
    ∧ normalizeWs shapeRendered = shapeSpecLine :=
  ⟨rfl, rfl⟩

/-- Claim C5, counterexample: the rendered text for the `Tags` example is
not literally the spec's single-line string (the renderer emits newlines
and indentation). -/
theorem C5_counterexample :
    ¬ (process_msg tagsMsg = some { name := "Tags.d.ts", content := tagsSpecLine }) := by
  decide

/-- Claim C5 (amended): a repeated field's mapped type is wrapped in
`ReadonlyArray<...>` uniformly (for plain and oneof fields alike), single
fields stay unwrapped, and the `Tags` example renders text equal to the
spec's example after whitespace normalization. -/
theorem C5_repeated_wraps (field : FieldDescriptorProto)
    (h : field.label = FieldDescriptorProto_Label.LABEL_REPEATED) :
    ((mkPlainField field).ts_type = TsFieldType.Array (field_type_to_ts_type field)
      ∧ (mkOneofField field).ts_type = TsFieldType.Array (field_type_to_ts_type field))
    ∧ (∀ t : TsType, TsFieldType.fmt (.Array t) = "ReadonlyArray<" ++ t.fmt ++ ">")
    ∧ (∀ f2 : FieldDescriptorProto,
        f2.label = FieldDescriptorProto_Label.LABEL_OPTIONAL ∨
          f2.label = FieldDescriptorProto_Label.LABEL_REQUIRED →
        (mkPlainField f2).ts_type = TsFieldType.Single (field_type_to_ts_type f2)
          ∧ (mkOneofField f2).ts_type = TsFieldType.Single (field_type_to_ts_type f2))
    ∧ process_msg tagsMsg = some { name := "Tags.d.ts", content := tagsRendered }
    ∧ normalizeWs tagsRendered = tagsSpecLine := by
  refine ⟨⟨?_, ?_⟩, fun t => rfl, ?_, rfl, rfl⟩
  · simp [mkPlainField, h]
  · simp [mkOneofField, h]
  · intro f2 h2
    rcases h2 with h2 | h2 <;> constructor <;> simp [mkPlainField, mkOneofField, h2]

/-- Witness for claim C5's theorem at the concrete `tags` field. -/
theorem C5_repeated_wraps_witness :
    tagsField.label = FieldDescriptorProto_Label.LABEL_REPEATED ∧
      (mkPlainField tagsField).ts_type = TsFieldType.Array (field_type_to_ts_type tagsField) :=
  ⟨rfl, (C5_repeated_wraps tagsField rfl).1.1⟩

/-- Claim C8: a field whose oneof index is out of range for its message's
declared group count makes the whole request fail (no response), never a
clamped or ignored field. -/
theorem C8_malformed_group_index_fatal (req : CodeGeneratorRequest)
    (h : ∃ pf ∈ req.proto_file, ∃ m ∈ pf.message_type, ∃ f ∈ m.field, ∃ v : Int,
        f.oneof_index = some v ∧ ¬(0 ≤ v ∧ v.toNat < m.oneof_decl.length)) :
    process_req req = none := by
  obtain ⟨pf, hpf, m, hm, f, hf, v, hv, hrange⟩ := h
  have hone : buildOneofList m = none := by
    apply pushFields_none
    refine ⟨f, hf, v, hv, ?_⟩
    simpa using hrange
  have hmsg : process_msg m = none := by
    simp [process_msg, hone]
  have hmem : m ∈ req.proto_file.flatMap (fun pf => pf.message_type) :=
    List.mem_flatMap.mpr ⟨pf, hpf, hm⟩
  simp only [process_req]
  rw [list_mapM_none hmem hmsg]
  rfl

/-- Witness for claim C8's theorem at the concrete malformed request. -/
theorem C8_witness : process_req badIndexReq = none :=
  C8_malformed_group_index_fatal badIndexReq
    ⟨badFile, by simp [badIndexReq], badIndexMsg, by simp [badFile], badField,
      by simp [badIndexMsg, DescriptorProto.field], 5, rfl, by decide⟩

/-- Claim C10: only top-level message declarations produce output records:
erasing every nested-type list leaves the output unchanged, and the
concrete request whose `Outer` message nests `Inner` yields exactly one
record, for `Outer`. -/
theorem C10_nested_types_ignored :
    (∀ req : CodeGeneratorRequest, process_req req.stripNested = process_req req)
    ∧ process_req nestedReq =
        some { file := [{ name := "Outer.d.ts",
                          content := "type Outer = Readonly<\x7b\n  o: boolean;\n\x7d>;\n" }] } := by
  constructor
  · intro req
    have h1 : (req.stripNested).proto_file.flatMap (fun pf => pf.message_type) =
        (req.proto_file.flatMap (fun pf => pf.message_type)).map DescriptorProto.stripNested := by
      simp [CodeGeneratorRequest.stripNested, List.flatMap_map, List.map_flatMap]
    have h2 : ((req.proto_file.flatMap (fun pf => pf.message_type)).map
          DescriptorProto.stripNested).mapM process_msg =
        (req.proto_file.flatMap (fun pf => pf.message_type)).mapM process_msg := by
      rw [list_mapM_map]
      exact list_mapM_congr (fun m _ => by cases m with | mk n f o nt => rfl)
    simp only [process_req, h1, h2]
  · rfl

/-- Claim C9: on success the driver yields exactly one record per message,
in input file/message order (the record list is pointwise the image of the
message list under `process_msg`), each named `<messageName>.d.ts` with the
rendered declaration as content. -/
theorem C9_driver_records (req : CodeGeneratorRequest) (resp : CodeGeneratorResponse)
    (h : process_req req = some resp) :
    resp.file.length = (req.proto_file.flatMap (fun pf => pf.message_type)).length
    ∧ (∀ g : Nat,
        Option.bind ((req.proto_file.flatMap (fun pf => pf.message_type))[g]?) process_msg =
          resp.file[g]?)
    ∧ (∀ m : DescriptorProto, ∀ r : CodeGeneratorResponse_File, process_msg m = some r →
        ∃ ol, buildOneofList m = some ol
          ∧ r = gen_resp_file m.name (TsObjectType.fmt
              { name := m.name, fields := plainTsFields m, oneof_list := ol })
          ∧ r.name = m.name ++ ".d.ts") := by
  have hmap : (req.proto_file.flatMap (fun pf => pf.message_type)).mapM process_msg =
      some resp.file := by
    unfold process_req at h
    cases hm : (req.proto_file.flatMap (fun pf => pf.message_type)).mapM process_msg with
    | none => rw [hm] at h; cases h
    | some fs =>
      rw [hm] at h
      cases h
      rfl
  obtain ⟨hlen, hget⟩ := list_mapM_some hmap
  refine ⟨hlen, hget, ?_⟩
  intro m r hmr
  unfold process_msg at hmr
  cases hol : buildOneofList m with
  | none => rw [hol] at hmr; cases hmr
  | some ol =>
    rw [hol] at hmr
    have hr : r = gen_resp_file m.name (TsObjectType.fmt
        { name := m.name, fields := plainTsFields m, oneof_list := ol }) := by
      simpa using hmr.symm
    refine ⟨ol, rfl, hr, ?_⟩
    rw [hr]
    rfl

/-- Witness for claim C9's theorem at the concrete `Shape` request. -/
theorem C9_witness :
    ∃ resp, process_req shapeReq = some resp ∧
      resp.file.length = (shapeReq.proto_file.flatMap (fun pf => pf.message_type)).length :=
  ⟨_, rfl, (C9_driver_records shapeReq _ rfl).1⟩

/-- Claim C2: classification partitions the field list: group bucket `g`
is exactly the in-order fields with index `g` (and the plain bucket those
without an index), each bucket is a sublist of the field list (stable
order), and the multiset union of all buckets is the field multiset. -/
theorem C2_classifier_partition (m : DescriptorProto) (ol : List (List TsField))
    (h : buildOneofList m = some ol) :
    ol.length = m.oneof_decl.length
    ∧ (∀ g : Nat, g < ol.length →
        ol[g]? = some ((m.field.filter
          (fun f => f.oneof_index == some ((g : Nat) : Int))).map mkOneofField))
    ∧ plainTsFields m = (m.field.filter (fun f => !f.oneof_index.isSome)).map mkPlainField
    ∧ (m.field.filter (fun f => !f.oneof_index.isSome)).Sublist m.field
    ∧ (∀ g : Nat, (m.field.filter
        (fun f => f.oneof_index == some ((g : Nat) : Int))).Sublist m.field)
    ∧ ((m.field.filter (fun f => !f.oneof_index.isSome) : Multiset FieldDescriptorProto) +
        ∑ g ∈ Finset.range m.oneof_decl.length,
          ((m.field.filter (fun f => f.oneof_index == some ((g : Nat) : Int))) :
            Multiset FieldDescriptorProto)) =
      (m.field : Multiset FieldDescriptorProto) := by
  have hlen : ol.length = m.oneof_decl.length := by
    have := pushFields_length h
    simpa using this
  refine ⟨hlen, ?_, rfl, List.filter_sublist _, fun g => List.filter_sublist _, ?_⟩
  · intro g hg
    have hp := pushFields_get? h g
    have hacc : (m.oneof_decl.map (fun _ => ([] : List TsField)))[g]? =
        some ([] : List TsField) := by
      rw [List.getElem?_map]
      have hg2 : g < m.oneof_decl.length := by rw [← hlen]; exact hg
      rw [List.getElem?_eq_getElem hg2]
      rfl
    rw [hp, hacc]
    simp
  · apply filter_partition
    intro f hf v hv
    have := pushFields_inRange h f hf v hv
    simpa using this

/-- Witness for claim C2's theorem at the concrete `Shape` message. -/
theorem C2_witness :
    ∃ ol, buildOneofList shapeMsg = some ol ∧ ol.length = shapeMsg.oneof_decl.length :=
  ⟨_, rfl, (C2_classifier_partition shapeMsg _ rfl).1⟩

/-- Counting a predicate and its negation covers the whole list. -/
theorem countP_bool_split {α : Type} (p : α → Bool) :
    ∀ l : List α, List.countP p l + List.countP (fun a => !p a) l = l.length := by
  intro l
  induction l with
  | nil => rfl
  | cons a l ih =>
    rw [List.countP_cons, List.countP_cons]
    cases hpa : p a <;> simp [hpa] <;> omega

/-- Claim C1, counterexample: in a group of k = 2 members that share the
key `x`, variant 0 renders both members live, so it does not contain
k - 1 = 1 forbidden (`never`) member declarations as the claim states. -/
theorem C1_counterexample :
    dupGroup.length = 2
    ∧ ((variantMembers dupGroup (mkOneofField dupFieldA)).filter
        (fun fld => isNeverMember fld)).length ≠ dupGroup.length - 1
    ∧ (variantMembers dupGroup (mkOneofField dupFieldA)).map TsField.fmt =
        ["x?: number;\n", "x?: string;\n"] := by
  refine ⟨rfl, by decide, rfl⟩

/-- Claim C1 (amended): for a oneof group of `k` members whose keys are
pairwise distinct, the rendered union has exactly `k` variant shapes; each
variant has exactly `k` member declarations, its `j`-th member being the
live member itself when `j = i` and the `never` replacement otherwise, so
exactly `k - 1` members are forbidden and exactly one is live. -/
theorem C1_mutual_exclusion_variants (oneof : List TsField)
    (hnd : (oneof.map (fun fld => fld.key)).Nodup)
    (hnv : ∀ fld ∈ oneof, isNeverMember fld = false) :
    (oneof.map (variantMembers oneof)).length = oneof.length
    ∧ (∀ f : FieldDescriptorProto, isNeverMember (mkOneofField f) = false)
    ∧ (∀ i : Nat, ∀ hi : i < oneof.length,
        (variantMembers oneof (oneof.get ⟨i, hi⟩)).length = oneof.length
        ∧ (∀ j : Nat, ∀ hj : j < oneof.length,
            (variantMembers oneof (oneof.get ⟨i, hi⟩))[j]? =
              some (if j = i then oneof.get ⟨i, hi⟩ else neverField (oneof.get ⟨j, hj⟩)))
        ∧ ((variantMembers oneof (oneof.get ⟨i, hi⟩)).filter
             (fun fld => isNeverMember fld)).length = oneof.length - 1
        ∧ ((variantMembers oneof (oneof.get ⟨i, hi⟩)).filter
             (fun fld => !isNeverMember fld)).length = 1) := by
  have hkey : ∀ (i j : Nat) (hi : i < oneof.length) (hj : j < oneof.length),
      ((oneof.get ⟨i, hi⟩).key = (oneof.get ⟨j, hj⟩).key ↔ i = j) := by
    intro i j hi hj
    constructor
    · intro hk
      have hg : (oneof.map (fun fld => fld.key)).get ⟨i, by simpa using hi⟩ =
          (oneof.map (fun fld => fld.key)).get ⟨j, by simpa using hj⟩ := by
        simpa using hk
      have hfin := (List.Nodup.get_inj_iff hnd).mp hg
      simpa using hfin
    · rintro rfl
      rfl
  refine ⟨by simp, ?_, ?_⟩
  · intro f
    cases f with
    | mk j t tn l o => cases l <;> cases t <;> rfl
  intro i hi
  have hmemfi : oneof.get ⟨i, hi⟩ ∈ oneof := List.get_mem oneof i hi
  refine ⟨by simp [variantMembers], ?_, ?_, ?_⟩
  · intro j hj
    have hj2 : j < (variantMembers oneof (oneof.get ⟨i, hi⟩)).length := by
      simpa [variantMembers] using hj
    rw [List.getElem?_eq_getElem hj2]
    have hval : (variantMembers oneof (oneof.get ⟨i, hi⟩))[j] =
        variantMember (oneof.get ⟨i, hi⟩) (oneof.get ⟨j, hj⟩) := by
      simp [variantMembers]
    rw [hval]
    congr 1
    unfold variantMember
    by_cases hji : j = i
    · subst hji
      simp
    · have hne : ¬ (oneof.get ⟨i, hi⟩).key = (oneof.get ⟨j, hj⟩).key := fun hk =>
        hji ((hkey i j hi hj).mp hk).symm
      simp only [List.get_eq_getElem] at hne
      simp [hji, hne]
  · rw [← List.countP_eq_length_filter]
    unfold variantMembers
    rw [List.countP_map]
    have hcong : List.countP
          ((fun fld => isNeverMember fld) ∘ variantMember (oneof.get ⟨i, hi⟩)) oneof =
        List.countP (fun fj => !((oneof.get ⟨i, hi⟩).key == fj.key)) oneof := by
      apply List.countP_congr
      intro fj hfj
      simp only [Function.comp]
      unfold variantMember
      cases hk : (oneof.get ⟨i, hi⟩).key == fj.key with
      | false => simp [neverField, isNeverMember]
      | true => simp [hnv fj hfj]
    rw [hcong]
    have hone : List.countP (fun fj => (oneof.get ⟨i, hi⟩).key == fj.key) oneof = 1 := by
      have hmem : (oneof.get ⟨i, hi⟩).key ∈ oneof.map (fun fld => fld.key) :=
        List.mem_map.mpr ⟨oneof.get ⟨i, hi⟩, hmemfi, rfl⟩
      have hc := List.count_eq_one_of_mem hnd hmem
      rw [List.count_eq_countP, List.countP_map] at hc
      calc List.countP (fun fj => (oneof.get ⟨i, hi⟩).key == fj.key) oneof
          = List.countP ((fun x => x == (oneof.get ⟨i, hi⟩).key) ∘ fun fld => fld.key)
              oneof := by
            apply List.countP_congr
            intro fj _
            simp only [Function.comp, beq_iff_eq]
            exact eq_comm
        _ = 1 := hc
    have hsplit := countP_bool_split (fun fj => (oneof.get ⟨i, hi⟩).key == fj.key) oneof
    omega
  · rw [← List.countP_eq_length_filter]
    unfold variantMembers
    rw [List.countP_map]
    have hcong : List.countP
          ((fun fld => !isNeverMember fld) ∘ variantMember (oneof.get ⟨i, hi⟩)) oneof =
        List.countP (fun fj => (oneof.get ⟨i, hi⟩).key == fj.key) oneof := by
      apply List.countP_congr
      intro fj hfj
      simp only [Function.comp]
      unfold variantMember
      cases hk : (oneof.get ⟨i, hi⟩).key == fj.key with
      | false => simp [neverField, isNeverMember]
      | true => simp [hnv fj hfj]
    rw [hcong]
    have hmem : (oneof.get ⟨i, hi⟩).key ∈ oneof.map (fun fld => fld.key) :=
      List.mem_map.mpr ⟨oneof.get ⟨i, hi⟩, hmemfi, rfl⟩
    have hc := List.count_eq_one_of_mem hnd hmem
    rw [List.count_eq_countP, List.countP_map] at hc
    calc List.countP (fun fj => (oneof.get ⟨i, hi⟩).key == fj.key) oneof
        = List.countP ((fun x => x == (oneof.get ⟨i, hi⟩).key) ∘ fun fld => fld.key)
            oneof := by
          apply List.countP_congr
          intro fj _
          simp only [Function.comp, beq_iff_eq]
          exact eq_comm
      _ = 1 := hc

/-- Witness for claim C1's theorem at the concrete circle/square group. -/
theorem C1_witness :
    (([mkOneofField circleField, mkOneofField squareField].map
        (variantMembers [mkOneofField circleField, mkOneofField squareField])).length =
      ([mkOneofField circleField, mkOneofField squareField] : List TsField).length) :=
  (C1_mutual_exclusion_variants [mkOneofField circleField, mkOneofField squareField]
    (by decide) (by decide)).1

end ProtocGenTst
